import Mathlib

/-!
Verification development for the GitHub scraping and analysis notebook.

The Python source (class GitHubScraper plus the analysis cells) is shallowly
embedded below: pure string helpers model the str methods used, the request
loop is modelled as a recursion over the finite sequence of HTTP responses the
server would produce, and the pagination loops are modelled as recursions over
the finite sequence of pages the API would return. Machine integers do not
overflow in the source, so Nat and Int are used directly; rational numbers
stand for the exact values of the float divisions in the analysis cells.
-/

/-- Python str.strip with no argument: drop whitespace from both ends. -/
def pyStrip (s : String) : String :=
  String.mk (((s.toList.dropWhile Char.isWhitespace).reverse.dropWhile
    Char.isWhitespace).reverse)

/-- Python str.lstrip set to the at sign: drop every leading at sign. -/
def pyLstripAt (s : String) : String :=
  String.mk (s.toList.dropWhile (fun ch => ch == '@'))

/-- Python str.upper, restricted to the ASCII mapping of Char.toUpper. -/
def pyUpper (s : String) : String :=
  String.mk (s.toList.map Char.toUpper)

/-- Python str.lower, restricted to the ASCII mapping of Char.toLower. -/
def pyLower (s : String) : String :=
  String.mk (s.toList.map Char.toLower)

/-- GitHubScraper.clean_company_name: `if not company: return ""` then
`company.strip().lstrip(at).upper()`. The argument is an Option because the
caller passes `user_data.get("company")`, which may be None. -/
def clean_company_name : Option String → String
  | none => ""
  | some company =>
    if company = "" then ""
    else pyUpper (pyLstripAt (pyStrip company))

/-- The claim reading of company normalization: trim surrounding whitespace,
strip a SINGLE leading at sign, uppercase the remainder, empty or absent
input giving the empty string. -/
def company_claimed : Option String → String
  | none => ""
  | some c =>
    pyUpper (String.mk
      (match (pyStrip c).toList with
       | '@' :: rest => rest
       | other => other))

/-- The amended reading: trim surrounding whitespace, strip ALL leading at
signs, uppercase the remainder, empty or absent input giving the empty
string. -/
def company_amended : Option String → String
  | none => ""
  | some c => pyUpper (pyLstripAt (pyStrip c))

/-- C1 counterexample: on the input with two leading at signs the code strips
both (lstrip removes every leading at sign), while the claim, which strips a
single leading at sign, keeps one. -/
theorem clean_company_counterexample :
    clean_company_name (some "@@x") = "X" ∧
    company_claimed (some "@@x") = "@X" ∧
    clean_company_name (some "@@x") ≠ company_claimed (some "@@x") := by
  refine ⟨by decide, by decide, by decide⟩

/-- C1 amended: for every input, clean_company_name returns the input trimmed
of surrounding whitespace, with ALL leading at signs stripped, and the
remainder uppercased; empty or absent input yields the empty string. -/
theorem clean_company_amended_eq :
    ∀ oc : Option String, clean_company_name oc = company_amended oc := by
  intro oc
  match oc with
  | none => rfl
  | some c =>
    by_cases hc : c = ""
    · subst hc; decide
    · simp [clean_company_name, company_amended, hc]

/-- One HTTP response as _make_request observes it: the status code, the
X-RateLimit-Reset header (absent when the server does not send it), the
response text and the parsed JSON payload (abstracted to a string). -/
structure HttpResponse where
  status : Nat
  rateLimitReset : Option Int
  text : String
  payload : String
deriving DecidableEq

/-- Outcome of _make_request over a finite sequence of server responses:
ok is a 200 body returned to the caller, fail is the exception thrown by
raise_for_status carrying the status and the body, and pending means the
provided response sequence ran out while the loop was still retrying. -/
inductive ReqOutcome where
  | ok (payload : String)
  | fail (status : Nat) (body : String)
  | pending
deriving DecidableEq

/-- Trace of one _make_request call: the outcome, every sleep duration
performed (in order), and the number of HTTP requests issued. -/
structure ReqTrace where
  outcome : ReqOutcome
  sleeps : List Int
  requests : Nat
deriving DecidableEq

/-- GitHubScraper._make_request, modelled over the finite sequence of
responses the server produces for the successive attempts. A 200 returns the
payload. A 403 reads the reset header (default 0), sleeps
max(reset - now, 0) + 1 seconds and retries the same request with the clock
advanced by the sleep. Any other status reaches response.raise_for_status,
which throws only for statuses in 400..599; for the remaining statuses it is
a no-op and the while-True loop retries immediately. -/
def makeRequest : Int → List HttpResponse → ReqTrace
  | _, [] => ⟨ReqOutcome.pending, [], 0⟩
  | now, r :: rest =>
    if r.status = 200 then ⟨ReqOutcome.ok r.payload, [], 1⟩
    else if r.status = 403 then
      let resetTime := r.rateLimitReset.getD 0
      let sleepTime := max (resetTime - now) 0 + 1
      let t := makeRequest (now + sleepTime) rest
      ⟨t.outcome, sleepTime :: t.sleeps, t.requests + 1⟩
    else if 400 ≤ r.status ∧ r.status < 600 then
      ⟨ReqOutcome.fail r.status r.text, [], 1⟩
    else
      let t := makeRequest now rest
      ⟨t.outcome, t.sleeps, t.requests + 1⟩

/-- Helper: when every response in the sequence has status 200 or 403, the
outcome of _make_request is never a failure. -/
theorem makeRequest_no_fail :
    ∀ (rs : List HttpResponse) (now : Int),
      (∀ x ∈ rs, x.status = 200 ∨ x.status = 403) →
      ∀ s b, (makeRequest now rs).outcome ≠ ReqOutcome.fail s b := by
  intro rs
  induction rs with
  | nil =>
    intro now h s b hfail
    simp [makeRequest] at hfail
  | cons r rest ih =>
    intro now h s b hfail
    rcases h r (List.mem_cons_self r rest) with h200 | h403
    · simp [makeRequest, h200] at hfail
    · have h200 : ¬ r.status = 200 := by omega
      simp [makeRequest, h200, h403] at hfail
      exact ih _ (fun x hx => h x (List.mem_cons_of_mem r hx)) s b hfail

/-- C2: on a 403 response, _make_request sleeps exactly
max(reset - now, 0) + 1 seconds (so exactly 6 seconds when the reset header
is T and the clock reads T - 5), then continues with the remaining responses
as the retry of the same request; and a response sequence containing only
statuses 200 and 403 can never produce a failure, however many consecutive
403 responses it holds. -/
theorem makeRequest_403_sleep_retry
    (now : Int) (r : HttpResponse) (rest : List HttpResponse)
    (h403 : r.status = 403) :
    (makeRequest now (r :: rest)).sleeps.head? =
        some (max (r.rateLimitReset.getD 0 - now) 0 + 1) ∧
    (∀ T : Int, r.rateLimitReset = some T → now = T - 5 →
        (makeRequest now (r :: rest)).sleeps.head? = some 6) ∧
    (makeRequest now (r :: rest)).outcome =
        (makeRequest (now + (max (r.rateLimitReset.getD 0 - now) 0 + 1))
          rest).outcome ∧
    ((∀ x ∈ r :: rest, x.status = 200 ∨ x.status = 403) →
        ∀ s b, (makeRequest now (r :: rest)).outcome ≠ ReqOutcome.fail s b) := by
  have h200 : ¬ r.status = 200 := by omega
  refine ⟨?_, ?_, ?_, ?_⟩
  · simp [makeRequest, h200, h403]
  · intro T hT hnow
    simp [makeRequest, h200, h403, hT, hnow]
  · simp [makeRequest, h200, h403]
  · exact makeRequest_no_fail (r :: rest) now

/-- Concrete 403 response with reset epoch 100 and a 200 follow-up. -/
def resp403 : HttpResponse := ⟨403, some 100, "rate limited", ""⟩

/-- Concrete 200 response carrying a payload. -/
def resp200 : HttpResponse := ⟨200, none, "", "okpayload"⟩

/-- C2 witness: at clock 95 (reset epoch 100, that is T - 5) the handler
sleeps exactly 6 seconds, the retry succeeds, and no failure arises. -/
theorem makeRequest_403_sleep_retry_witness :
    (makeRequest 95 [resp403, resp200]).sleeps.head? = some 6 ∧
    (makeRequest 95 [resp403, resp200]).outcome = ReqOutcome.ok "okpayload" ∧
    (makeRequest 95 [resp403, resp200]).outcome ≠
      ReqOutcome.fail 403 "rate limited" := by
  have h := makeRequest_403_sleep_retry 95 resp403 [resp200] rfl
  refine ⟨h.2.1 100 rfl (by norm_num), by decide, ?_⟩
  exact h.2.2.2 (by decide) 403 "rate limited"

/-- Concrete 204 response: non-200, but below 400, so raise_for_status does
not throw. -/
def resp204 : HttpResponse := ⟨204, none, "No Content", ""⟩

/-- C3 counterexample: a 204 response is neither 200 nor 403, yet
_make_request does not fail on it: raise_for_status is a no-op below status
400, the loop silently retries, and with a 200 next the call succeeds after
two requests instead of failing immediately. -/
theorem makeRequest_non200_counterexample :
    (makeRequest 0 [resp204, resp200]).outcome = ReqOutcome.ok "okpayload" ∧
    (makeRequest 0 [resp204, resp200]).requests = 2 ∧
    (makeRequest 0 [resp204, resp200]).outcome ≠
      ReqOutcome.fail 204 "No Content" := by
  refine ⟨by decide, by decide, by decide⟩

/-- C3 amended: for every response whose status is neither 200 nor 403 and
lies in 400..599, _make_request fails immediately, surfacing the status and
the body, with exactly one request and no sleep; a non-200 status outside
400..599 is instead retried immediately. -/
theorem makeRequest_4xx_fails_immediately
    (now : Int) (r : HttpResponse) (rest : List HttpResponse)
    (h1 : 400 ≤ r.status) (h2 : r.status < 600) (h3 : r.status ≠ 403) :
    makeRequest now (r :: rest) = ⟨ReqOutcome.fail r.status r.text, [], 1⟩ := by
  have h200 : ¬ r.status = 200 := by omega
  simp [makeRequest, h200, h3, h1, h2]

/-- Concrete 404 response. -/
def resp404 : HttpResponse := ⟨404, none, "Not Found", ""⟩

/-- C3 witness: a 404 fails at once, surfacing status and body, with one
request and no retry. -/
theorem makeRequest_4xx_witness :
    makeRequest 0 [resp404] = ⟨ReqOutcome.fail 404 "Not Found", [], 1⟩ :=
  makeRequest_4xx_fails_immediately 0 resp404 [] (by decide) (by decide)
    (by decide)

/-- License object inside a repository payload; the code reads its key. -/
structure RawLicense where
  key : String
deriving DecidableEq

/-- Raw repository payload fields that get_user_repositories reads. -/
structure RawRepo where
  full_name : String
  created_at : String
  stargazers_count : Nat
  watchers_count : Nat
  language : Option String
  has_projects : Bool
  has_wiki : Bool
  license : Option RawLicense
deriving DecidableEq

/-- Repository record appended to the repos list by get_user_repositories. -/
structure RepoRecord where
  login : String
  full_name : String
  created_at : String
  stargazers_count : Nat
  watchers_count : Nat
  language : String
  has_projects : Bool
  has_wiki : Bool
  license_name : String
deriving DecidableEq

/-- Python `x if x else ""` on a nullable string field: None and the empty
string both collapse to the empty string. -/
def pyTextOrEmpty : Option String → String
  | none => ""
  | some s => if s = "" then "" else s

/-- The repo_data dictionary built for one raw repository: the login is the
username argument, null language becomes the empty string, and the license
key is read only when a license object is present. -/
def mkRepoRecord (username : String) (repo : RawRepo) : RepoRecord :=
  ⟨username, repo.full_name, repo.created_at, repo.stargazers_count,
   repo.watchers_count, pyTextOrEmpty repo.language, repo.has_projects,
   repo.has_wiki,
   match repo.license with
   | some l => l.key
   | none => ""⟩

/-- Loop body of GitHubScraper.get_user_repositories over the finite sequence
of pages the API returns (a request past the provided list yields the empty
page). Returns the accumulated records and the number of page requests made:
the while condition is len(repos) < max_repos, an empty page breaks, a page
is appended whole, and a short page (< 100 items) breaks after appending. -/
def getUserReposGo (username : String) (maxRepos : Nat) :
    List (List RawRepo) → List RepoRecord → List RepoRecord × Nat
  | [], repos =>
    if repos.length < maxRepos then (repos, 1) else (repos, 0)
  | page :: rest, repos =>
    if repos.length < maxRepos then
      if page.isEmpty then (repos, 1)
      else
        let repos2 := repos ++ page.map (mkRepoRecord username)
        if page.length < 100 then (repos2, 1)
        else
          let t := getUserReposGo username maxRepos rest repos2
          (t.1, t.2 + 1)
    else (repos, 0)

/-- GitHubScraper.get_user_repositories: run the loop from an empty list and
return repos[:max_repos]. -/
def getUserRepos (username : String) (maxRepos : Nat)
    (pages : List (List RawRepo)) : List RepoRecord :=
  ((getUserReposGo username maxRepos pages []).1).take maxRepos

/-- Number of page requests one get_user_repositories call issues. -/
def getUserReposRequests (username : String) (maxRepos : Nat)
    (pages : List (List RawRepo)) : Nat :=
  (getUserReposGo username maxRepos pages []).2

/-- C4: get_user_repositories returns at most max_repos records, and returns
exactly max_repos when at least max_repos records were accumulated before the
final truncation (the overshooting last page is cut down to the cap). -/
theorem getUserRepos_at_most_max (u : String) (m : Nat)
    (pages : List (List RawRepo)) :
    (getUserRepos u m pages).length ≤ m ∧
    (m ≤ ((getUserReposGo u m pages []).1).length →
      (getUserRepos u m pages).length = m) := by
  constructor
  · simp [getUserRepos]
  · intro h
    simp [getUserRepos]
    omega

/-- Concrete raw repository payloads. -/
def rawRepo0 : RawRepo := ⟨"alice/r1", "2020-01-01", 1, 1, some "Go", true, true, none⟩

/-- Second concrete raw repository payload, with a license and no language. -/
def rawRepo1 : RawRepo := ⟨"alice/r2", "2020-01-02", 2, 2, none, false, false, some ⟨"mit"⟩⟩

/-- C4 witness: with max_repos 1 and a single page of two repositories, the
page overshoots and the result is truncated to exactly one record. -/
theorem getUserRepos_at_most_max_witness :
    (getUserRepos "alice" 1 [[rawRepo0, rawRepo1]]).length = 1 :=
  (getUserRepos_at_most_max "alice" 1 [[rawRepo0, rawRepo1]]).2 (by decide)

/-- C10: with max_repos equal to zero the while condition fails at once, so
get_user_repositories issues no page request and returns the empty list. -/
theorem getUserRepos_zero_max (u : String) (pages : List (List RawRepo))
    (m : Nat) (h : m ≤ 0) :
    getUserReposRequests u m pages = 0 ∧ getUserRepos u m pages = [] := by
  have hm : m = 0 := Nat.le_zero.mp h
  subst hm
  cases pages with
  | nil => exact ⟨rfl, rfl⟩
  | cons p rest => exact ⟨rfl, rfl⟩

/-- C10 witness: max_repos zero issues no request and returns nothing even
though a nonempty page is available. -/
theorem getUserRepos_zero_max_witness :
    getUserReposRequests "alice" 0 [[rawRepo0]] = 0 ∧
    getUserRepos "alice" 0 [[rawRepo0]] = [] :=
  getUserRepos_zero_max "alice" [[rawRepo0]] 0 (by decide)

/-- Raw profile payload fields that search_users reads for one user (the
follow-up request for user detail is collapsed into the page item). -/
structure RawUser where
  login : String
  name : Option String
  company : Option String
  location : Option String
  email : Option String
  hireable : Option Bool
  bio : Option String
  public_repos : Nat
  followers : Nat
  following : Nat
  created_at : String
deriving DecidableEq

/-- The cleaned_data dictionary search_users appends for one user. -/
structure UserRecord where
  login : String
  name : String
  company : String
  location : String
  email : String
  hireable : Bool
  bio : String
  public_repos : Nat
  followers : Nat
  following : Nat
  created_at : String
deriving DecidableEq

/-- The cleaned_data construction: nullable text fields collapse to the
empty string via Python truthiness, hireable is False exactly when the field
is null, and company goes through clean_company_name. -/
def mkUserRecord (u : RawUser) : UserRecord :=
  ⟨u.login, pyTextOrEmpty u.name, clean_company_name u.company,
   pyTextOrEmpty u.location, pyTextOrEmpty u.email,
   (match u.hireable with
    | some b => b
    | none => false),
   pyTextOrEmpty u.bio, u.public_repos, u.followers, u.following,
   u.created_at⟩

/-- Loop of GitHubScraper.search_users over the finite sequence of search
result pages (a request past the provided list yields a page with empty
items). Returns the accumulated user records and the number of page requests:
the loop breaks only when a page with empty items arrives. -/
def searchUsersGo : List (List RawUser) → List UserRecord × Nat
  | [] => ([], 1)
  | page :: rest =>
    if page.isEmpty then ([], 1)
    else
      let t := searchUsersGo rest
      (page.map mkUserRecord ++ t.1, t.2 + 1)

/-- GitHubScraper.search_users: the records the loop accumulates. -/
def searchUsers (pages : List (List RawUser)) : List UserRecord :=
  (searchUsersGo pages).1

/-- Number of search page requests one search_users call issues. -/
def searchUsersRequests (pages : List (List RawUser)) : Nat :=
  (searchUsersGo pages).2

/-- Concrete raw user whose nullable fields are all null. -/
def rawUser0 : RawUser :=
  ⟨"alice", none, none, none, none, none, none, 3, 250, 7, "2019-05-01"⟩

/-- C5 counterexample: the claim says every pagination loop terminates on the
first page with fewer than 100 items or on the first empty page. The
repository loop with max_repos 1 stops after one full page of 100 items,
never seeing a short or empty page (so it does not reach the empty second
page the claim would have it terminate on), and the search loop keeps going
after a short nonempty page, issuing a second request instead of stopping. -/
theorem pagination_counterexample :
    getUserReposRequests "alice" 1 [List.replicate 100 rawRepo0, []] = 1 ∧
    getUserReposRequests "alice" 1 [List.replicate 100 rawRepo0, []] ≠ 2 ∧
    searchUsersRequests [[rawUser0]] = 2 ∧
    searchUsersRequests [[rawUser0]] ≠ 1 := by
  refine ⟨by decide, by decide, by decide, by decide⟩

/-- Helper: the search loop issues one request per leading nonempty page plus
the one for the terminating empty page. -/
theorem searchUsersGo_requests :
    ∀ pages : List (List RawUser),
      (searchUsersGo pages).2 =
        (pages.takeWhile (fun p => !p.isEmpty)).length + 1 := by
  intro pages
  induction pages with
  | nil => rfl
  | cons p rest ih =>
    by_cases hp : p.isEmpty
    · simp [searchUsersGo, hp, List.takeWhile_cons]
    · simp [searchUsersGo, hp, List.takeWhile_cons, ih]

/-- Helper: the repository loop issues at most one request per provided page
plus one for the empty page past the end. -/
theorem getUserReposGo_requests_le :
    ∀ (u : String) (m : Nat) (pages : List (List RawRepo))
      (acc : List RepoRecord),
      (getUserReposGo u m pages acc).2 ≤ pages.length + 1 := by
  intro u m pages
  induction pages with
  | nil =>
    intro acc
    simp only [getUserReposGo]
    split <;> simp
  | cons p rest ih =>
    intro acc
    simp only [getUserReposGo]
    split
    · split
      · simp
      · split
        · simp
        · have h := ih (acc ++ p.map (mkRepoRecord u))
          simp only [List.length_cons]
          omega
    · simp

/-- Helper: the repository loop issues at least one request whenever the
while condition holds on entry. -/
theorem getUserReposGo_requests_pos (u : String) (m : Nat)
    (pages : List (List RawRepo)) (acc : List RepoRecord)
    (h : acc.length < m) : 1 ≤ (getUserReposGo u m pages acc).2 := by
  cases pages with
  | nil => simp [getUserReposGo, h]
  | cons p rest =>
    simp only [getUserReposGo, if_pos h]
    split
    · simp
    · split
      · simp
      · simp

/-- C5 amended: the search loop requests one page per leading nonempty page
plus the terminating empty page, so it terminates exactly on the first empty
page (a short nonempty page does not stop it); the repository loop
terminates after at most one request per available page plus one (stopping
on the first empty page, on the first short page, or once the accumulated
count reaches max_repos), and it requests at least one page whenever
max_repos is positive. -/
theorem pagination_amended :
    (∀ pages : List (List RawUser),
      searchUsersRequests pages =
        (pages.takeWhile (fun p => !p.isEmpty)).length + 1) ∧
    (∀ (u : String) (m : Nat) (pages : List (List RawRepo)), 0 < m →
      1 ≤ getUserReposRequests u m pages ∧
        getUserReposRequests u m pages ≤ pages.length + 1) := by
  refine ⟨fun pages => searchUsersGo_requests pages, ?_⟩
  intro u m pages hm
  exact ⟨getUserReposGo_requests_pos u m pages [] (by simpa using hm),
    getUserReposGo_requests_le u m pages []⟩

/-- C5 amended witness: concrete request counts for a one-page search and a
one-page repository listing. -/
theorem pagination_amended_witness :
    searchUsersRequests [[rawUser0]] =
      (List.takeWhile (fun p => !p.isEmpty) [[rawUser0]]).length + 1 ∧
    (1 ≤ getUserReposRequests "alice" 5 [[rawRepo0]] ∧
      getUserReposRequests "alice" 5 [[rawRepo0]] ≤ 2) :=
  ⟨pagination_amended.1 [[rawUser0]],
    pagination_amended.2 "alice" 5 [[rawRepo0]] (by decide)⟩

/-- Helper: every record search_users produces is the cleaned_data built from
some raw profile. -/
theorem searchUsersGo_mem :
    ∀ (pages : List (List RawUser)) (rec : UserRecord),
      rec ∈ (searchUsersGo pages).1 → ∃ raw : RawUser, rec = mkUserRecord raw := by
  intro pages
  induction pages with
  | nil =>
    intro rec h
    simp [searchUsersGo] at h
  | cons p rest ih =>
    intro rec h
    by_cases hp : p.isEmpty
    · simp [searchUsersGo, hp] at h
    · simp only [searchUsersGo, hp, Bool.false_eq_true, if_false,
        List.mem_append, List.mem_map] at h
      rcases h with ⟨raw, _, hraw⟩ | hrec
      · exact ⟨raw, hraw.symm⟩
      · exact ih rec hrec

/-- C6: every user record produced by search_users comes from a raw profile,
and whenever that profile has a null name, location, email or bio the record
holds the empty string there, and a null hireable yields false. -/
theorem searchUsers_null_defaults (pages : List (List RawUser))
    (rec : UserRecord) (hrec : rec ∈ searchUsers pages) :
    ∃ raw : RawUser, rec = mkUserRecord raw ∧
      (raw.name = none → rec.name = "") ∧
      (raw.location = none → rec.location = "") ∧
      (raw.email = none → rec.email = "") ∧
      (raw.bio = none → rec.bio = "") ∧
      (raw.hireable = none → rec.hireable = false) := by
  obtain ⟨raw, hr⟩ := searchUsersGo_mem pages rec hrec
  subst hr
  refine ⟨raw, rfl, ?_, ?_, ?_, ?_, ?_⟩ <;>
    intro h <;> simp [mkUserRecord, pyTextOrEmpty, h]

/-- C6 witness: the record built from the all-null raw profile has empty
strings and false in every nullable position. -/
theorem searchUsers_null_defaults_witness :
    ∃ raw : RawUser, mkUserRecord rawUser0 = mkUserRecord raw ∧
      (raw.name = none → (mkUserRecord rawUser0).name = "") ∧
      (raw.location = none → (mkUserRecord rawUser0).location = "") ∧
      (raw.email = none → (mkUserRecord rawUser0).email = "") ∧
      (raw.bio = none → (mkUserRecord rawUser0).bio = "") ∧
      (raw.hireable = none → (mkUserRecord rawUser0).hireable = false) :=
  searchUsers_null_defaults [[rawUser0]] (mkUserRecord rawUser0) (by decide)

/-- Helper: every record the repository loop accumulates carries the username
argument as its login, provided the accumulator already does. -/
theorem getUserReposGo_login :
    ∀ (u : String) (m : Nat) (pages : List (List RawRepo))
      (acc : List RepoRecord),
      (∀ r ∈ acc, r.login = u) →
      ∀ r ∈ (getUserReposGo u m pages acc).1, r.login = u := by
  intro u m pages
  induction pages with
  | nil =>
    intro acc hacc r hr
    simp only [getUserReposGo] at hr
    split at hr <;> exact hacc r hr
  | cons p rest ih =>
    intro acc hacc r hr
    have hstep : ∀ x ∈ acc ++ p.map (mkRepoRecord u), x.login = u := by
      intro x hx
      rcases List.mem_append.mp hx with h1 | h2
      · exact hacc x h1
      · rcases List.mem_map.mp h2 with ⟨raw, _, hraw⟩
        rw [← hraw]
        rfl
    simp only [getUserReposGo] at hr
    split at hr
    · split at hr
      · exact hacc r hr
      · split at hr
        · exact hstep r hr
        · exact ih (acc ++ p.map (mkRepoRecord u)) hstep r hr
    · exact hacc r hr

/-- The data flow of main after the token prompt: collect the users for the
fixed Seattle query, then loop over them extending all_repos with each
user's repositories (max_repos keeps its default 500). The pages each API
call would serve are supplied as arguments. -/
def mainCollect (userPages : List (List RawUser))
    (repoPages : String → List (List RawRepo)) :
    List UserRecord × List RepoRecord :=
  let users := searchUsers userPages
  (users,
   users.foldl
     (fun allRepos user =>
       allRepos ++ getUserRepos user.login 500 (repoPages user.login)) [])

/-- Helper: a record in the all_repos fold either was in the accumulator or
carries the login of one of the users iterated over. -/
theorem mainCollect_fold_mem :
    ∀ (repoPages : String → List (List RawRepo)) (users : List UserRecord)
      (acc : List RepoRecord) (r : RepoRecord),
      r ∈ users.foldl
        (fun allRepos user =>
          allRepos ++ getUserRepos user.login 500 (repoPages user.login)) acc →
      r ∈ acc ∨ ∃ usr ∈ users, r.login = usr.login := by
  intro repoPages users
  induction users with
  | nil =>
    intro acc r h
    exact Or.inl (by simpa using h)
  | cons u rest ih =>
    intro acc r h
    simp only [List.foldl_cons] at h
    rcases ih _ r h with hacc | ⟨usr, husr, heq⟩
    · rcases List.mem_append.mp hacc with h1 | h2
      · exact Or.inl h1
      · refine Or.inr ⟨u, List.mem_cons_self u rest, ?_⟩
        exact getUserReposGo_login u.login 500 (repoPages u.login) []
          (by simp) r (List.take_subset 500 _ h2)
    · exact Or.inr ⟨usr, List.mem_cons_of_mem u husr, heq⟩

/-- C7: every record returned by get_user_repositories carries the username
argument as its login, and every repository record main accumulates carries
the login of a user record produced by the same run of search_users. -/
theorem repo_login_invariant :
    (∀ (u : String) (m : Nat) (pages : List (List RawRepo))
        (r : RepoRecord), r ∈ getUserRepos u m pages → r.login = u) ∧
    (∀ (userPages : List (List RawUser))
        (repoPages : String → List (List RawRepo)) (r : RepoRecord),
        r ∈ (mainCollect userPages repoPages).2 →
        ∃ usr ∈ (mainCollect userPages repoPages).1, r.login = usr.login) := by
  constructor
  · intro u m pages r hr
    exact getUserReposGo_login u m pages [] (by simp) r
      (List.take_subset m _ hr)
  · intro userPages repoPages r hr
    have h := mainCollect_fold_mem repoPages (searchUsers userPages) [] r hr
    rcases h with habs | hok
    · simp at habs
    · exact hok

/-- C7 witness: the single repository record collected for the single Seattle
user carries that user's login. -/
theorem repo_login_invariant_witness :
    (mkRepoRecord "alice" rawRepo0).login = "alice" ∧
    ∃ usr ∈ (mainCollect [[rawUser0]] (fun _ => [[rawRepo0]])).1,
      (mkRepoRecord "alice" rawRepo0).login = usr.login :=
  ⟨repo_login_invariant.1 "alice" 5 [[rawRepo0]]
      (mkRepoRecord "alice" rawRepo0) (by decide),
    repo_login_invariant.2 [[rawUser0]] (fun _ => [[rawRepo0]])
      (mkRepoRecord "alice" rawRepo0) (by decide)⟩

/-- Insert one element into a descending-sorted list, after every element
whose key is at least as large: the insertion step of a stable descending
sort, the behaviour the Python sorted builtin guarantees. -/
def insertDescBy {α K : Type} [LinearOrder K] (key : α → K) (x : α) :
    List α → List α
  | [] => [x]
  | y :: ys =>
    if key x < key y then y :: insertDescBy key x ys else x :: y :: ys

/-- Stable descending sort by a key, modelling Python sorted with a key
function and reverse set to True. -/
def sortDescBy {α K : Type} [LinearOrder K] (key : α → K) :
    List α → List α
  | [] => []
  | x :: xs => insertDescBy key x (sortDescBy key xs)

/-- Helper: inserting an element preserves, for every key value, the
subsequence of elements carrying that key, with the new element joining the
front of its own key class (it is the earliest of its class still to be
placed). -/
theorem filter_insertDescBy {α K : Type} [LinearOrder K] [DecidableEq K]
    (key : α → K) (x : α) (s : List α) (k : K) :
    (insertDescBy key x s).filter (fun y => decide (key y = k)) =
      if key x = k then x :: s.filter (fun y => decide (key y = k))
      else s.filter (fun y => decide (key y = k)) := by
  induction s with
  | nil =>
    by_cases h : key x = k <;> simp [insertDescBy, h]
  | cons y ys ih =>
    simp only [insertDescBy]
    by_cases hxy : key x < key y
    · rw [if_pos hxy]
      by_cases hy : key y = k
      · have hx : ¬ key x = k := by
          intro hxk
          rw [hxk, ← hy] at hxy
          exact lt_irrefl _ hxy
        simp [List.filter_cons, hy, hx, ih]
      · simp [List.filter_cons, hy, ih]
    · rw [if_neg hxy]
      by_cases hx : key x = k <;> simp [List.filter_cons, hx]

/-- Helper: the stable descending sort preserves, for every key value, the
original relative order of the elements carrying that key. -/
theorem filter_sortDescBy {α K : Type} [LinearOrder K] [DecidableEq K]
    (key : α → K) (l : List α) (k : K) :
    (sortDescBy key l).filter (fun y => decide (key y = k)) =
      l.filter (fun y => decide (key y = k)) := by
  induction l with
  | nil => rfl
  | cons x xs ih =>
    simp only [sortDescBy, filter_insertDescBy, List.filter_cons]
    by_cases hx : key x = k <;> simp [hx, ih]

/-- Row of the leader_strength cell: the fields it reads from users_df. -/
structure LUser where
  login : String
  followers : Nat
  following : Nat
deriving DecidableEq

/-- Derived metric of the leader_strength cell: followers / (1 + following),
as the exact rational value of the float division. -/
def leader_strength (u : LUser) : ℚ :=
  (u.followers : ℚ) / (1 + (u.following : ℚ))

/-- The leader_strength cell: sort users_df descending by leader_strength,
take the first five logins. -/
def leaderRanking (rows : List LUser) : List String :=
  ((sortDescBy leader_strength rows).take 5).map (fun u => u.login)

/-- The two users of the C8 scenario. -/
def lUserA : LUser := ⟨"a", 500, 10⟩

/-- Second user of the C8 scenario. -/
def lUserB : LUser := ⟨"b", 100, 0⟩

/-- C8: on the two-row table of the scenario the ranking places b (strength
100/1 = 100) before a (strength 500/11). -/
theorem leader_strength_ranking :
    leaderRanking [lUserA, lUserB] = ["b", "a"] := by
  have h : leader_strength ⟨"a", 500, 10⟩ < leader_strength ⟨"b", 100, 0⟩ := by
    simp only [leader_strength]
    norm_num
  simp only [leaderRanking, sortDescBy, insertDescBy, lUserA, lUserB]
  rw [if_pos h]
  simp

/-- Row of the top-5 followers cell as read back from users.csv. -/
structure CsvUser where
  login : String
  location : String
  followers : Nat
deriving DecidableEq

/-- Substring test on character lists: the needle occurs somewhere in the
haystack, modelling the Python in operator on strings. -/
def listContainsSub (needle : List Char) : List Char → Bool
  | [] => needle.isEmpty
  | c :: rest => needle.isPrefixOf (c :: rest) || listContainsSub needle rest

/-- Location test of the top-5 followers cell:
"seattle" in row location stripped and lowercased. -/
def locationHasSeattle (loc : String) : Bool :=
  listContainsSub "seattle".toList ((pyLower (pyStrip loc)).toList)

/-- Filter step of the top-5 followers cell. -/
def usersInSeattle (rows : List CsvUser) : List CsvUser :=
  rows.filter (fun r => locationHasSeattle r.location)

/-- Sort step of the top-5 followers cell: stable descending by followers
(the Python sorted builtin with reverse True is stable). -/
def topUsersByFollowers (rows : List CsvUser) : List CsvUser :=
  sortDescBy (fun r => r.followers) (usersInSeattle rows)

/-- The top-5 followers cell: the first five logins of the sorted rows. -/
def top5Logins (rows : List CsvUser) : List String :=
  ((topUsersByFollowers rows).take 5).map (fun u => u.login)

/-- C9: the top-5-by-followers query is deterministic, two runs over the
same table giving the identical list, and the sort is stable: for every
follower count, the rows carrying it appear in the sorted list in their
original input order. -/
theorem top5_deterministic_stable (rows : List CsvUser) :
    top5Logins rows = top5Logins rows ∧
    ∀ k : Nat,
      (topUsersByFollowers rows).filter (fun r => decide (r.followers = k)) =
        (usersInSeattle rows).filter (fun r => decide (r.followers = k)) :=
  ⟨rfl, fun k =>
    filter_sortDescBy (fun r => r.followers) (usersInSeattle rows) k⟩
